import Mathlib

/-!
# Verification of the offline QRS detector

Shallow embedding of `qrs_detector_online/QRSDetectorOffline.py` and proofs
about it.  Real-valued samples are modelled as rationals (`ℚ`), signal indices
as integers (`ℤ`) inside the classifier (Python subtraction can go negative)
and as naturals (`ℕ`) where they index arrays.  Fallible operations return
`Except`.
-/

namespace QRSDetectorOffline

/-- Decidable equality of `Except` results, so that concrete runs of the
fallible operations can be checked by evaluation. -/
instance {ε α : Type} [DecidableEq ε] [DecidableEq α] : DecidableEq (Except ε α)
  | Except.error a, Except.error b =>
    match decEq a b with
    | isTrue h => isTrue (by rw [h])
    | isFalse h => isFalse (by intro hh; injection hh; exact h ‹_›)
  | Except.error _, Except.ok _ => isFalse (by intro hh; exact Except.noConfusion hh)
  | Except.ok _, Except.error _ => isFalse (by intro hh; exact Except.noConfusion hh)
  | Except.ok a, Except.ok b =>
    match decEq a b with
    | isTrue h => isTrue (by rw [h])
    | isFalse h => isFalse (by intro hh; injection hh; exact h ‹_›)

/-- Configuration parameters, with the default values set in `__init__`
(source lines 36-51). -/
structure Config where
  signal_frequency : ℚ := 250
  filter_lowcut : ℚ := 0
  filter_highcut : ℚ := 15
  filter_order : ℕ := 1
  integration_window : ℕ := 15
  findpeaks_limit : ℚ := 35 / 100
  findpeaks_spacing : ℕ := 50
  refractory_period : ℤ := 120
  signal_peak_filtering_factor : ℚ := 1 / 8
  noise_peak_filtering_factor : ℚ := 1 / 8
  signal_noise_diff_weight : ℚ := 1 / 4

/-- The configuration every `QRSDetectorOffline` instance is constructed
with (the constructor hard-codes all parameters). -/
def defaultConfig : Config := {}

/-! ## Signal conditioning (`detect_peaks`, source lines 92-120)

`np.ediff1d` is the first discrete difference, `** 2` the elementwise square,
and `np.convolve` (default mode) the full discrete convolution. -/

/-- `np.ediff1d`: consecutive differences `data[i+1] - data[i]`. -/
def ediff1d (xs : List ℚ) : List ℚ :=
  List.zipWith (fun a b => b - a) xs xs.tail

/-- Elementwise squaring (`self.differentiated_signal ** 2`). -/
def square (xs : List ℚ) : List ℚ :=
  xs.map (fun a => a ^ 2)

/-- Pointwise sum of two sequences, the shorter one padded with zeros. -/
def overlapAdd : List ℚ → List ℚ → List ℚ
  | [], ys => ys
  | x :: xs, [] => x :: xs
  | x :: xs, y :: ys => (x + y) :: overlapAdd xs ys

/-- Full discrete convolution, as computed by `np.convolve(a, v)` in its
default (`full`) mode: entry `n` is `∑ k, a[k] * v[n - k]`, realised by
shift-and-add recursion on the first argument. -/
def convolve : List ℚ → List ℚ → List ℚ
  | [], _ => []
  | x :: xs, ys => overlapAdd (ys.map (fun y => x * y)) (0 :: convolve xs ys)

/-- `np.ones(n)`: the rectangular integration window. -/
def onesWindow (n : ℕ) : List ℚ :=
  List.replicate n 1

/-! ## Digital filter (`bandpass_filter`, source lines 159-175)

The source computes the Nyquist frequency, normalises both cutoffs by it, and
unconditionally delegates to the external scipy collaborators
`butter`/`lfilter`; it contains no conditional and raises no error of its own.
The external call is represented by the argument record handed to it. -/

/-- The error type the specification attributes to the digital filter. -/
inductive FilterError where
  | invalidFilterSpec
deriving DecidableEq

/-- The arguments `bandpass_filter` hands to the external `butter`/`lfilter`
routines: the two Nyquist-normalised cutoffs, the filter order, and the data. -/
structure ButterLfilterCall where
  low : ℚ
  high : ℚ
  order : ℕ
  data : List ℚ
deriving DecidableEq

/-- Embedding of `bandpass_filter` (source lines 159-175): normalises the
cutoffs by the Nyquist frequency (`0.5 * signal_freq`) and proceeds to the
external filtering call; there is no validation of any kind. -/
def bandpass_filter (data : List ℚ) (lowcut highcut signal_freq : ℚ)
    (filter_order : ℕ) : Except FilterError ButterLfilterCall :=
  let nyquist_freq := (1 / 2) * signal_freq
  let low := lowcut / nyquist_freq
  let high := highcut / nyquist_freq
  Except.ok { low := low, high := high, order := filter_order, data := data }

/-! ## Peak finder (`findpeaks`, source lines 177-207) -/

/-- The sentinel offset `1.e-6` subtracted from the boundary values. -/
def fpEps : ℚ := 1 / 1000000

/-- The padded working array `x` built by `findpeaks`: `spacing` copies of
`data[0] - 1e-6` in front, `spacing` copies of `data[-1] - 1e-6` behind. -/
def fpPadded (data : List ℚ) (spacing : ℕ) : List ℚ :=
  List.replicate spacing (data.headD 0 - fpEps) ++ data ++
    List.replicate spacing (data.getLastD 0 - fpEps)

/-- The peak-candidate predicate of `findpeaks`: for every offset
`s < spacing` the centre sample `x[spacing + i]` is strictly greater than both
`x[spacing - s - 1 + i]` (before) and `x[spacing + s + 1 + i]` (after). -/
def fpIsPeak (data : List ℚ) (spacing : ℕ) (i : ℕ) : Bool :=
  let x := fpPadded data spacing
  (List.range spacing).all fun s =>
    decide (x.getD (spacing + i) 0 > x.getD (spacing - s - 1 + i) 0) &&
    decide (x.getD (spacing + i) 0 > x.getD (spacing + s + 1 + i) 0)

/-- The only failure mode of `findpeaks`: `data[0]` on an empty array raises
an (unnamed) `IndexError`. -/
inductive FindpeaksError where
  | indexError
deriving DecidableEq

/-- Embedding of `findpeaks` (source lines 177-207): indices of the data whose
padded neighbourhood satisfies the strict-greater test for every offset below
`spacing`, then filtered by `data[ind] > limit` when a limit is given. -/
def findpeaks (data : List ℚ) (spacing : ℕ) (limit : Option ℚ) :
    Except FindpeaksError (List ℕ) :=
  if data.isEmpty then
    Except.error FindpeaksError.indexError
  else
    let ind := (List.range data.length).filter fun i => fpIsPeak data spacing i
    match limit with
    | none => Except.ok ind
    | some l => Except.ok (ind.filter fun i => decide (data.getD i 0 > l))

/-- Spec-modelled neighbour lookup for the Peak Finder refinement claims:
`data[j]` for an in-range `j`, and the nearest boundary value minus the small
epsilon for an out-of-range `j` (the spec's sentinel-padding description). -/
def specNeighbor (data : List ℚ) (j : ℤ) : ℚ :=
  if j < 0 then data.headD 0 - fpEps
  else if (data.length : ℤ) ≤ j then data.getLastD 0 - fpEps
  else data.getD j.toNat 0

/-- Spec-modelled peak predicate, following the spec's words: `i` is in range,
`data[i]` strictly exceeds every neighbour at signed offsets `±(s+1)` for
`s < spacing`, and `data[i]` exceeds the limit when one is given. -/
def specIsPeak (data : List ℚ) (spacing : ℕ) (limit : Option ℚ) (i : ℕ) : Prop :=
  i < data.length ∧
  (∀ s < spacing,
    data.getD i 0 > specNeighbor data ((i : ℤ) - (s + 1)) ∧
    data.getD i 0 > specNeighbor data ((i : ℤ) + (s + 1))) ∧
  ∀ l, limit = some l → data.getD i 0 > l

/-! ## Adaptive classifier (`detect_qrs`, source lines 124-155) -/

/-- The mutable running state of the classifier: the two output index arrays
and the three adaptive level values (source lines 64-69). -/
structure QrsState where
  qrs_peaks_indices : List ℤ
  noise_peaks_indices : List ℤ
  signal_peak_value : ℚ
  noise_peak_value : ℚ
  threshold_value : ℚ
deriving DecidableEq

/-- The state set up in `__init__`: empty index arrays, all levels `0.0`. -/
def initialState : QrsState :=
  { qrs_peaks_indices := []
    noise_peaks_indices := []
    signal_peak_value := 0
    noise_peak_value := 0
    threshold_value := 0 }

/-- One iteration of the `detect_qrs` loop body on candidate `(idx, val)`:
take the last accepted QRS index (`0` when there is none, via the
`IndexError` handler), test the refractory/bootstrap condition, then classify
against the threshold and recompute the threshold from the updated levels. -/
def detectQrsStep (cfg : Config) (st : QrsState) (idx : ℤ) (val : ℚ) : QrsState :=
  let last_qrs_index := st.qrs_peaks_indices.getLastD 0
  if idx - last_qrs_index > cfg.refractory_period ∨ st.qrs_peaks_indices = [] then
    let st1 :=
      if val > st.threshold_value then
        { st with
          qrs_peaks_indices := st.qrs_peaks_indices ++ [idx]
          signal_peak_value := cfg.signal_peak_filtering_factor * val +
            (1 - cfg.signal_peak_filtering_factor) * st.signal_peak_value }
      else
        { st with
          noise_peaks_indices := st.noise_peaks_indices ++ [idx]
          noise_peak_value := cfg.noise_peak_filtering_factor * val +
            (1 - cfg.noise_peak_filtering_factor) * st.noise_peak_value }
    { st1 with
      threshold_value := st1.noise_peak_value +
        cfg.signal_noise_diff_weight * (st1.signal_peak_value - st1.noise_peak_value) }
  else
    st

/-- Embedding of `detect_qrs`: fold the loop body over the candidate list of
`(index, value)` pairs (the `zip` of the two argument arrays). -/
def detect_qrs (cfg : Config) (st : QrsState) : List (ℤ × ℚ) → QrsState
  | [] => st
  | c :: cs => detect_qrs cfg (detectQrsStep cfg st c.1 c.2) cs

/-- The candidates the `detect_qrs` loop skips: those hitting a refractory
branch where the classification body does not run.  Defined by the same
recursion as `detect_qrs` (in the skip branch the step leaves the state
unchanged). -/
def skippedCandidates (cfg : Config) (st : QrsState) : List (ℤ × ℚ) → List ℤ
  | [] => []
  | c :: cs =>
    let last_qrs_index := st.qrs_peaks_indices.getLastD 0
    if c.1 - last_qrs_index > cfg.refractory_period ∨ st.qrs_peaks_indices = [] then
      skippedCandidates cfg (detectQrsStep cfg st c.1 c.2) cs
    else
      c.1 :: skippedCandidates cfg st cs

/-! ## Basic length lemmas (signal conditioning) -/

theorem ediff1d_length (xs : List ℚ) : (ediff1d xs).length = xs.length - 1 := by
  simp [ediff1d]

theorem overlapAdd_length (xs ys : List ℚ) :
    (overlapAdd xs ys).length = max xs.length ys.length := by
  induction xs generalizing ys with
  | nil => simp [overlapAdd]
  | cons x xs ih =>
    cases ys with
    | nil => simp [overlapAdd]
    | cons y ys =>
      simp [overlapAdd, ih]
      omega

theorem convolve_length (xs ys : List ℚ) (hx : xs ≠ []) (hy : ys ≠ []) :
    (convolve xs ys).length = xs.length + ys.length - 1 := by
  induction xs with
  | nil => exact absurd rfl hx
  | cons x xs ih =>
    cases xs with
    | nil =>
      simp [convolve, overlapAdd_length]
      cases ys with
      | nil => exact absurd rfl hy
      | cons y ys => simp
    | cons x1 xs1 =>
      have h1 : (convolve (x1 :: xs1) ys).length = (x1 :: xs1).length + ys.length - 1 :=
        ih (by simp)
      have hy1 : 0 < ys.length := List.length_pos.mpr hy
      rw [convolve, overlapAdd_length]
      simp only [List.length_map, List.length_cons] at h1 ⊢
      omega

/-! ## Peak finder lemmas -/

theorem fpPadded_getD_left {data : List ℚ} {spacing j : ℕ} (hj : j < spacing) :
    (fpPadded data spacing).getD j 0 = data.headD 0 - fpEps := by
  unfold fpPadded
  rw [List.append_assoc, List.getD_append _ _ _ _ (by simpa using hj)]
  rw [List.getD_eq_getElem _ _ (by simpa using hj), List.getElem_replicate]

theorem fpPadded_getD_mid {data : List ℚ} {spacing j : ℕ} (h1 : spacing ≤ j)
    (h2 : j < spacing + data.length) :
    (fpPadded data spacing).getD j 0 = data.getD (j - spacing) 0 := by
  unfold fpPadded
  rw [List.append_assoc, List.getD_append_right _ _ _ _ (by simpa using h1),
    List.length_replicate, List.getD_append _ _ _ _ (by omega)]

theorem fpPadded_getD_right {data : List ℚ} {spacing j : ℕ}
    (h1 : spacing + data.length ≤ j) (h2 : j < spacing + data.length + spacing) :
    (fpPadded data spacing).getD j 0 = data.getLastD 0 - fpEps := by
  unfold fpPadded
  rw [List.append_assoc, List.getD_append_right _ _ _ _ (by simp; omega),
    List.length_replicate, List.getD_append_right _ _ _ _ (by omega)]
  rw [List.getD_eq_getElem _ _ (by simp; omega), List.getElem_replicate]

theorem fpPadded_getD_center {data : List ℚ} {spacing i : ℕ} (hi : i < data.length) :
    (fpPadded data spacing).getD (spacing + i) 0 = data.getD i 0 := by
  rw [fpPadded_getD_mid (by omega) (by omega)]
  congr 1
  omega

theorem fpPadded_getD_before {data : List ℚ} {spacing s i : ℕ} (hi : i < data.length)
    (hs : s < spacing) :
    (fpPadded data spacing).getD (spacing - s - 1 + i) 0 =
      specNeighbor data ((i : ℤ) - (s + 1)) := by
  by_cases hcase : s + 1 ≤ i
  · have hidx : spacing - s - 1 + i = spacing + (i - (s + 1)) := by omega
    rw [hidx, fpPadded_getD_mid (by omega) (by omega)]
    unfold specNeighbor
    rw [if_neg (by omega), if_neg (by omega)]
    congr 1
    omega
  · rw [fpPadded_getD_left (by omega)]
    unfold specNeighbor
    rw [if_pos (by omega)]

theorem fpPadded_getD_after {data : List ℚ} {spacing s i : ℕ} (hi : i < data.length)
    (hs : s < spacing) :
    (fpPadded data spacing).getD (spacing + s + 1 + i) 0 =
      specNeighbor data ((i : ℤ) + (s + 1)) := by
  by_cases hcase : i + s + 1 < data.length
  · have hidx : spacing + s + 1 + i = spacing + (i + s + 1) := by omega
    rw [hidx, fpPadded_getD_mid (by omega) (by omega)]
    unfold specNeighbor
    rw [if_neg (by omega), if_neg (by omega)]
    congr 1
    omega
  · rw [fpPadded_getD_right (by omega) (by omega)]
    unfold specNeighbor
    rw [if_neg (by omega), if_pos (by omega)]

theorem fpIsPeak_iff {data : List ℚ} {spacing i : ℕ} (hi : i < data.length) :
    fpIsPeak data spacing i = true ↔
      ∀ s < spacing,
        data.getD i 0 > specNeighbor data ((i : ℤ) - (s + 1)) ∧
        data.getD i 0 > specNeighbor data ((i : ℤ) + (s + 1)) := by
  unfold fpIsPeak
  simp only [List.all_eq_true, List.mem_range, Bool.and_eq_true, decide_eq_true_eq]
  constructor
  · intro h s hs
    obtain ⟨h1, h2⟩ := h s hs
    rw [fpPadded_getD_center hi, fpPadded_getD_before hi hs] at h1
    rw [fpPadded_getD_center hi, fpPadded_getD_after hi hs] at h2
    exact ⟨h1, h2⟩
  · intro h s hs
    obtain ⟨h1, h2⟩ := h s hs
    constructor
    · rw [fpPadded_getD_center hi, fpPadded_getD_before hi hs]
      exact h1
    · rw [fpPadded_getD_center hi, fpPadded_getD_after hi hs]
      exact h2

theorem findpeaks_none_eq {data : List ℚ} (hde : data.isEmpty = false) (spacing : ℕ) :
    findpeaks data spacing none =
      Except.ok ((List.range data.length).filter fun i => fpIsPeak data spacing i) := by
  unfold findpeaks
  rw [hde]
  rfl

theorem findpeaks_some_eq {data : List ℚ} (hde : data.isEmpty = false) (spacing : ℕ)
    (lim : ℚ) :
    findpeaks data spacing (some lim) =
      Except.ok (((List.range data.length).filter fun i => fpIsPeak data spacing i).filter
        fun i => decide (data.getD i 0 > lim)) := by
  unfold findpeaks
  rw [hde]
  rfl

theorem findpeaks_ok_iff {data : List ℚ} {spacing : ℕ} {limit : Option ℚ}
    (hd : data ≠ []) :
    ∃ l, findpeaks data spacing limit = Except.ok l ∧ List.Sorted (· < ·) l ∧
      ∀ i, i ∈ l ↔ specIsPeak data spacing limit i := by
  have hde : data.isEmpty = false := by
    cases data with
    | nil => exact absurd rfl hd
    | cons a as => rfl
  cases limit with
  | none =>
    refine ⟨_, findpeaks_none_eq hde spacing, (List.sorted_lt_range _).filter _, ?_⟩
    intro i
    simp only [List.mem_filter, List.mem_range, specIsPeak]
    constructor
    · rintro ⟨hi, hp⟩
      exact ⟨hi, (fpIsPeak_iff hi).mp hp, by simp⟩
    · rintro ⟨hi, hp, -⟩
      exact ⟨hi, (fpIsPeak_iff hi).mpr hp⟩
  | some lim =>
    refine ⟨_, findpeaks_some_eq hde spacing lim,
      ((List.sorted_lt_range _).filter _).filter _, ?_⟩
    intro i
    simp only [List.mem_filter, List.mem_range, decide_eq_true_eq, specIsPeak]
    constructor
    · rintro ⟨⟨hi, hp⟩, hlim⟩
      exact ⟨hi, (fpIsPeak_iff hi).mp hp, fun l hl => by cases hl; exact hlim⟩
    · rintro ⟨hi, hp, hlim⟩
      exact ⟨⟨hi, (fpIsPeak_iff hi).mpr hp⟩, hlim lim rfl⟩

/-! ## Classifier lemmas -/

theorem detectQrsStep_skip {cfg : Config} {st : QrsState} {idx : ℤ} {val : ℚ}
    (h1 : ¬ idx - st.qrs_peaks_indices.getLastD 0 > cfg.refractory_period)
    (h2 : st.qrs_peaks_indices ≠ []) :
    detectQrsStep cfg st idx val = st := by
  simp only [detectQrsStep]
  rw [if_neg (not_or.mpr ⟨h1, h2⟩)]

theorem detectQrsStep_classify {cfg : Config} {st : QrsState} {idx : ℤ} {val : ℚ}
    (h : idx - st.qrs_peaks_indices.getLastD 0 > cfg.refractory_period ∨
        st.qrs_peaks_indices = []) :
    ((detectQrsStep cfg st idx val).qrs_peaks_indices = st.qrs_peaks_indices ++ [idx] ∧
      (detectQrsStep cfg st idx val).noise_peaks_indices = st.noise_peaks_indices) ∨
    ((detectQrsStep cfg st idx val).qrs_peaks_indices = st.qrs_peaks_indices ∧
      (detectQrsStep cfg st idx val).noise_peaks_indices =
        st.noise_peaks_indices ++ [idx]) := by
  simp only [detectQrsStep]
  rw [if_pos h]
  by_cases hv : val > st.threshold_value
  · rw [if_pos hv]
    exact Or.inl ⟨rfl, rfl⟩
  · rw [if_neg hv]
    exact Or.inr ⟨rfl, rfl⟩

theorem detectQrsStep_cases (cfg : Config) (st : QrsState) (idx : ℤ) (val : ℚ) :
    detectQrsStep cfg st idx val = st ∨
    ((detectQrsStep cfg st idx val).qrs_peaks_indices = st.qrs_peaks_indices ++ [idx] ∧
      (detectQrsStep cfg st idx val).noise_peaks_indices = st.noise_peaks_indices) ∨
    ((detectQrsStep cfg st idx val).qrs_peaks_indices = st.qrs_peaks_indices ∧
      (detectQrsStep cfg st idx val).noise_peaks_indices =
        st.noise_peaks_indices ++ [idx]) := by
  by_cases h : idx - st.qrs_peaks_indices.getLastD 0 > cfg.refractory_period ∨
      st.qrs_peaks_indices = []
  · exact Or.inr (detectQrsStep_classify h)
  · exact Or.inl (detectQrsStep_skip (not_or.mp h).1 (not_or.mp h).2)

theorem detect_qrs_qrs_append (cfg : Config) :
    ∀ (cs : List (ℤ × ℚ)) (st : QrsState),
      ∃ l, (detect_qrs cfg st cs).qrs_peaks_indices = st.qrs_peaks_indices ++ l ∧
        l.Sublist (cs.map Prod.fst)
  | [], st => ⟨[], by simp [detect_qrs], by simp⟩
  | c :: cs, st => by
    obtain ⟨l, hl, hs⟩ := detect_qrs_qrs_append cfg cs (detectQrsStep cfg st c.1 c.2)
    rcases detectQrsStep_cases cfg st c.1 c.2 with h | ⟨hq, -⟩ | ⟨hq, -⟩
    · refine ⟨l, ?_, ?_⟩
      · rw [detect_qrs, hl, h]
      · simpa using hs.cons c.1
    · refine ⟨c.1 :: l, ?_, ?_⟩
      · rw [detect_qrs, hl, hq, List.append_assoc]
        rfl
      · simpa using hs.cons₂ c.1
    · refine ⟨l, ?_, ?_⟩
      · rw [detect_qrs, hl, hq]
      · simpa using hs.cons c.1

theorem detect_qrs_noise_append (cfg : Config) :
    ∀ (cs : List (ℤ × ℚ)) (st : QrsState),
      ∃ l, (detect_qrs cfg st cs).noise_peaks_indices = st.noise_peaks_indices ++ l ∧
        l.Sublist (cs.map Prod.fst)
  | [], st => ⟨[], by simp [detect_qrs], by simp⟩
  | c :: cs, st => by
    obtain ⟨l, hl, hs⟩ := detect_qrs_noise_append cfg cs (detectQrsStep cfg st c.1 c.2)
    rcases detectQrsStep_cases cfg st c.1 c.2 with h | ⟨-, hn⟩ | ⟨-, hn⟩
    · refine ⟨l, ?_, ?_⟩
      · rw [detect_qrs, hl, h]
      · simpa using hs.cons c.1
    · refine ⟨l, ?_, ?_⟩
      · rw [detect_qrs, hl, hn]
      · simpa using hs.cons c.1
    · refine ⟨c.1 :: l, ?_, ?_⟩
      · rw [detect_qrs, hl, hn, List.append_assoc]
        rfl
      · simpa using hs.cons₂ c.1

theorem detect_qrs_chain (cfg : Config) :
    ∀ (cs : List (ℤ × ℚ)) (st : QrsState),
      List.Chain' (fun a b => b - a > cfg.refractory_period) st.qrs_peaks_indices →
      List.Chain' (fun a b => b - a > cfg.refractory_period)
        (detect_qrs cfg st cs).qrs_peaks_indices
  | [], st => fun h => by
    rw [detect_qrs]
    exact h
  | c :: cs, st => fun h => by
    rw [detect_qrs]
    apply detect_qrs_chain cfg cs
    by_cases hc : c.1 - st.qrs_peaks_indices.getLastD 0 > cfg.refractory_period ∨
        st.qrs_peaks_indices = []
    · rcases @detectQrsStep_classify cfg st c.1 c.2 hc with ⟨hq, -⟩ | ⟨hq, -⟩
      · rw [hq]
        rcases hc with hgap | hnil
        · refine List.chain'_append.mpr ⟨h, List.chain'_singleton _, ?_⟩
          intro x hx y hy
          have hx' : st.qrs_peaks_indices.getLastD 0 = x := by
            rw [List.getLastD_eq_getLast?, hx]
            rfl
          have hy' : c.1 = y := by
            simpa using hy
          rw [← hy']
          rw [hx'] at hgap
          exact hgap
        · rw [hnil]
          exact List.chain'_singleton _
      · rw [hq]
        exact h
    · rw [detectQrsStep_skip (not_or.mp hc).1 (not_or.mp hc).2]
      exact h

theorem skippedCandidates_sublist (cfg : Config) :
    ∀ (cs : List (ℤ × ℚ)) (st : QrsState),
      (skippedCandidates cfg st cs).Sublist (cs.map Prod.fst)
  | [], _ => by simp [skippedCandidates]
  | c :: cs, st => by
    simp only [skippedCandidates]
    by_cases h : c.1 - st.qrs_peaks_indices.getLastD 0 > cfg.refractory_period ∨
        st.qrs_peaks_indices = []
    · rw [if_pos h]
      simpa using (skippedCandidates_sublist cfg cs _).cons c.1
    · rw [if_neg h]
      simpa using (skippedCandidates_sublist cfg cs st).cons₂ c.1

theorem detect_qrs_mem_three (cfg : Config) :
    ∀ (cs : List (ℤ × ℚ)) (st : QrsState) (i : ℤ), i ∈ cs.map Prod.fst →
      i ∈ (detect_qrs cfg st cs).qrs_peaks_indices ∨
      i ∈ (detect_qrs cfg st cs).noise_peaks_indices ∨
      i ∈ skippedCandidates cfg st cs
  | [], _, i => by simp
  | c :: cs, st, i => fun hi => by
    have hi' : i = c.1 ∨ i ∈ cs.map Prod.fst := by simpa using hi
    rw [detect_qrs]
    simp only [skippedCandidates]
    by_cases hc : c.1 - st.qrs_peaks_indices.getLastD 0 > cfg.refractory_period ∨
        st.qrs_peaks_indices = []
    · rw [if_pos hc]
      rcases hi' with heq | htail
      · subst heq
        rcases @detectQrsStep_classify cfg st c.1 c.2 hc with ⟨hq, -⟩ | ⟨-, hn⟩
        · left
          obtain ⟨l, hl, -⟩ := detect_qrs_qrs_append cfg cs (detectQrsStep cfg st c.1 c.2)
          rw [hl, hq]
          simp
        · right; left
          obtain ⟨l, hl, -⟩ := detect_qrs_noise_append cfg cs (detectQrsStep cfg st c.1 c.2)
          rw [hl, hn]
          simp
      · exact detect_qrs_mem_three cfg cs (detectQrsStep cfg st c.1 c.2) i htail
    · rw [if_neg hc, detectQrsStep_skip (not_or.mp hc).1 (not_or.mp hc).2]
      rcases hi' with heq | htail
      · right; right
        rw [heq]
        exact List.mem_cons_self _ _
      · rcases detect_qrs_mem_three cfg cs st i htail with h | h | h
        · exact Or.inl h
        · exact Or.inr (Or.inl h)
        · exact Or.inr (Or.inr (List.mem_cons_of_mem _ h))

theorem detect_qrs_disjoint_aux (cfg : Config) :
    ∀ (cs : List (ℤ × ℚ)) (st : QrsState),
      (cs.map Prod.fst).Pairwise (· < ·) →
      (∀ i ∈ cs.map Prod.fst, ∀ j ∈ st.qrs_peaks_indices, j < i) →
      (∀ i ∈ cs.map Prod.fst, ∀ j ∈ st.noise_peaks_indices, j < i) →
      (∀ j ∈ st.qrs_peaks_indices, j ∉ st.noise_peaks_indices) →
      ∀ j ∈ (detect_qrs cfg st cs).qrs_peaks_indices,
        j ∉ (detect_qrs cfg st cs).noise_peaks_indices
  | [], st => fun _ _ _ hdisj => by
    rw [detect_qrs]
    exact hdisj
  | c :: cs, st => fun hasc hq hn hdisj => by
    have hpair := List.pairwise_cons.mp (show List.Pairwise (· < ·)
      (c.1 :: cs.map Prod.fst) from hasc)
    have hhead : ∀ i ∈ cs.map Prod.fst, c.1 < i := hpair.1
    have hqtail : ∀ i ∈ cs.map Prod.fst, ∀ j ∈ st.qrs_peaks_indices, j < i :=
      fun i hi => hq i (List.mem_cons_of_mem _ hi)
    have hntail : ∀ i ∈ cs.map Prod.fst, ∀ j ∈ st.noise_peaks_indices, j < i :=
      fun i hi => hn i (List.mem_cons_of_mem _ hi)
    rw [detect_qrs]
    rcases detectQrsStep_cases cfg st c.1 c.2 with h | ⟨hq', hn'⟩ | ⟨hq', hn'⟩
    · rw [h]
      exact detect_qrs_disjoint_aux cfg cs st hpair.2 hqtail hntail hdisj
    · apply detect_qrs_disjoint_aux cfg cs (detectQrsStep cfg st c.1 c.2) hpair.2
      · intro i hi j hj
        rw [hq'] at hj
        rcases List.mem_append.mp hj with hj' | hj'
        · exact hqtail i hi j hj'
        · have hj1 : j = c.1 := by simpa using hj'
          rw [hj1]
          exact hhead i hi
      · intro i hi j hj
        rw [hn'] at hj
        exact hntail i hi j hj
      · intro j hj
        rw [hq'] at hj
        rw [hn']
        rcases List.mem_append.mp hj with hj' | hj'
        · exact hdisj j hj'
        · have hj1 : j = c.1 := by simpa using hj'
          rw [hj1]
          intro hmem
          exact absurd (hn c.1 (List.mem_cons_self _ _) c.1 hmem) (lt_irrefl c.1)
    · apply detect_qrs_disjoint_aux cfg cs (detectQrsStep cfg st c.1 c.2) hpair.2
      · intro i hi j hj
        rw [hq'] at hj
        exact hqtail i hi j hj
      · intro i hi j hj
        rw [hn'] at hj
        rcases List.mem_append.mp hj with hj' | hj'
        · exact hntail i hi j hj'
        · have hj1 : j = c.1 := by simpa using hj'
          rw [hj1]
          exact hhead i hi
      · intro j hj
        rw [hq'] at hj
        rw [hn']
        intro hmem
        rcases List.mem_append.mp hmem with hm | hm
        · exact hdisj j hj hm
        · have hj1 : j = c.1 := by simpa using hm
          have hlt := hq c.1 (List.mem_cons_self _ _) j hj
          exact absurd (hj1 ▸ hlt) (lt_irrefl _)

theorem skipped_not_mem_aux (cfg : Config) :
    ∀ (cs : List (ℤ × ℚ)) (st : QrsState),
      (cs.map Prod.fst).Pairwise (· < ·) →
      (∀ i ∈ cs.map Prod.fst, ∀ j ∈ st.qrs_peaks_indices, j < i) →
      (∀ i ∈ cs.map Prod.fst, ∀ j ∈ st.noise_peaks_indices, j < i) →
      ∀ j ∈ skippedCandidates cfg st cs,
        j ∉ (detect_qrs cfg st cs).qrs_peaks_indices ∧
        j ∉ (detect_qrs cfg st cs).noise_peaks_indices
  | [], _ => fun _ _ _ => by simp [skippedCandidates]
  | c :: cs, st => fun hasc hq hn => by
    have hpair := List.pairwise_cons.mp (show List.Pairwise (· < ·)
      (c.1 :: cs.map Prod.fst) from hasc)
    have hhead : ∀ i ∈ cs.map Prod.fst, c.1 < i := hpair.1
    rw [detect_qrs]
    simp only [skippedCandidates]
    by_cases hc : c.1 - st.qrs_peaks_indices.getLastD 0 > cfg.refractory_period ∨
        st.qrs_peaks_indices = []
    · rw [if_pos hc]
      rcases @detectQrsStep_classify cfg st c.1 c.2 hc with ⟨hq', hn'⟩ | ⟨hq', hn'⟩
      · exact skipped_not_mem_aux cfg cs _ hpair.2
          (fun i hi j hj => by
            rw [hq'] at hj
            rcases List.mem_append.mp hj with hj' | hj'
            · exact hq i (List.mem_cons_of_mem _ hi) j hj'
            · have hj1 : j = c.1 := by simpa using hj'
              rw [hj1]
              exact hhead i hi)
          (fun i hi j hj => by
            rw [hn'] at hj
            exact hn i (List.mem_cons_of_mem _ hi) j hj)
      · exact skipped_not_mem_aux cfg cs _ hpair.2
          (fun i hi j hj => by
            rw [hq'] at hj
            exact hq i (List.mem_cons_of_mem _ hi) j hj)
          (fun i hi j hj => by
            rw [hn'] at hj
            rcases List.mem_append.mp hj with hj' | hj'
            · exact hn i (List.mem_cons_of_mem _ hi) j hj'
            · have hj1 : j = c.1 := by simpa using hj'
              rw [hj1]
              exact hhead i hi)
    · rw [if_neg hc, detectQrsStep_skip (not_or.mp hc).1 (not_or.mp hc).2]
      intro j hj
      rcases List.mem_cons.mp hj with heq | htail
      · subst heq
        constructor
        · obtain ⟨l, hl, hsub⟩ := detect_qrs_qrs_append cfg cs st
          rw [hl]
          intro hmem
          rcases List.mem_append.mp hmem with hm | hm
          · exact absurd (hq c.1 (List.mem_cons_self _ _) c.1 hm) (lt_irrefl _)
          · exact absurd (hhead c.1 (hsub.subset hm)) (lt_irrefl _)
        · obtain ⟨l, hl, hsub⟩ := detect_qrs_noise_append cfg cs st
          rw [hl]
          intro hmem
          rcases List.mem_append.mp hmem with hm | hm
          · exact absurd (hn c.1 (List.mem_cons_self _ _) c.1 hm) (lt_irrefl _)
          · exact absurd (hhead c.1 (hsub.subset hm)) (lt_irrefl _)
      · exact skipped_not_mem_aux cfg cs st hpair.2
          (fun i hi j' hj' => hq i (List.mem_cons_of_mem _ hi) j' hj')
          (fun i hi j' hj' => hn i (List.mem_cons_of_mem _ hi) j' hj') j htail

theorem detect_qrs_partition_aux (cfg : Config) :
    ∀ (cs : List (ℤ × ℚ)) (st : QrsState),
      ((detect_qrs cfg st cs).qrs_peaks_indices : Multiset ℤ) +
        ((detect_qrs cfg st cs).noise_peaks_indices : Multiset ℤ) +
        (skippedCandidates cfg st cs : Multiset ℤ) =
      (st.qrs_peaks_indices : Multiset ℤ) + (st.noise_peaks_indices : Multiset ℤ) +
        ((cs.map Prod.fst : List ℤ) : Multiset ℤ)
  | [], st => by
    rw [detect_qrs]
    simp [skippedCandidates]
  | c :: cs, st => by
    rw [detect_qrs]
    simp only [skippedCandidates]
    by_cases hc : c.1 - st.qrs_peaks_indices.getLastD 0 > cfg.refractory_period ∨
        st.qrs_peaks_indices = []
    · rw [if_pos hc]
      rw [detect_qrs_partition_aux cfg cs (detectQrsStep cfg st c.1 c.2)]
      rcases @detectQrsStep_classify cfg st c.1 c.2 hc with ⟨hq', hn'⟩ | ⟨hq', hn'⟩
      · rw [hq', hn', List.map_cons]
        rw [← Multiset.coe_add]
        simp only [← Multiset.cons_coe, Multiset.coe_nil]
        simp only [← Multiset.singleton_add]
        abel
      · rw [hq', hn', List.map_cons]
        rw [← Multiset.coe_add]
        simp only [← Multiset.cons_coe, Multiset.coe_nil]
        simp only [← Multiset.singleton_add]
        abel
    · rw [if_neg hc, detectQrsStep_skip (not_or.mp hc).1 (not_or.mp hc).2]
      rw [List.map_cons]
      simp only [← Multiset.cons_coe]
      rw [Multiset.add_cons, Multiset.add_cons, detect_qrs_partition_aux cfg cs st]

/-! ## Claim theorems -/

/-- C1: any two distinct indices in the final QRS output of `detect_qrs`
differ by more than `refractory_period` samples: once a QRS has been
accepted, a candidate is eligible only when its index minus the last accepted
QRS index exceeds the refractory period, so the accepted indices are pairwise
separated (indeed without needing any exception for the first two). -/
theorem qrs_indices_refractory_spaced (cfg : Config) (cs : List (ℤ × ℚ))
    (hr : 0 ≤ cfg.refractory_period) :
    ((detect_qrs cfg initialState cs).qrs_peaks_indices).Pairwise
      (fun a b => b - a > cfg.refractory_period) := by
  have hchain := detect_qrs_chain cfg cs initialState List.chain'_nil
  haveI : IsTrans ℤ fun a b => b - a > cfg.refractory_period :=
    ⟨fun a b c h1 h2 => by omega⟩
  exact List.chain'_iff_pairwise.mp hchain

/-- Witness for `qrs_indices_refractory_spaced` at a concrete run. -/
theorem qrs_indices_refractory_spaced_witness :
    (0 : ℤ) ≤ defaultConfig.refractory_period ∧
    ((detect_qrs defaultConfig initialState
        [((0 : ℤ), (1 : ℚ)), ((200 : ℤ), (1 : ℚ))]).qrs_peaks_indices).Pairwise
      (fun a b => b - a > defaultConfig.refractory_period) :=
  ⟨by decide, qrs_indices_refractory_spaced defaultConfig
    [((0 : ℤ), (1 : ℚ)), ((200 : ℤ), (1 : ℚ))] (by decide)⟩

/-- C2: for every non-empty data sequence, spacing ≥ 1 and optional limit,
`findpeaks` returns exactly the ascending list of the indices satisfying the
spec's strict-local-maximum predicate (out-of-range neighbours read as the
nearest boundary value minus a small epsilon, and `value > limit` when a
limit is given); in particular an index tying with any neighbour in its
spacing window is never returned, since the predicate is strict. -/
theorem findpeaks_matches_spec (data : List ℚ) (spacing : ℕ) (limit : Option ℚ)
    (hd : data ≠ []) (_hs : 1 ≤ spacing) :
    ∃ l, findpeaks data spacing limit = Except.ok l ∧ List.Sorted (· < ·) l ∧
      ∀ i, i ∈ l ↔ specIsPeak data spacing limit i :=
  findpeaks_ok_iff hd

/-- Witness for `findpeaks_matches_spec` at a concrete input. -/
theorem findpeaks_matches_spec_witness :
    ([1, 3, 2] : List ℚ) ≠ [] ∧ (1 : ℕ) ≤ 1 ∧
    (∃ l, findpeaks [1, 3, 2] 1 none = Except.ok l ∧ List.Sorted (· < ·) l ∧
      ∀ i, i ∈ l ↔ specIsPeak [1, 3, 2] 1 none i) :=
  ⟨by decide, by decide, findpeaks_matches_spec [1, 3, 2] 1 none (by decide) (by decide)⟩

/-- C3: for candidates in ascending index order, the QRS and noise outputs of
`detect_qrs` are disjoint sublists of the candidate index sequence; every
candidate index lands in the QRS output, the noise output or the
refractory-skipped list, and a skipped candidate is in neither output, so
every non-skipped candidate is appended to exactly one of the two outputs. -/
theorem detect_qrs_outputs_structure (cfg : Config) (cs : List (ℤ × ℚ))
    (hasc : (cs.map Prod.fst).Pairwise (· < ·)) :
    (∀ j ∈ (detect_qrs cfg initialState cs).qrs_peaks_indices,
        j ∉ (detect_qrs cfg initialState cs).noise_peaks_indices) ∧
    ((detect_qrs cfg initialState cs).qrs_peaks_indices).Sublist
      (cs.map Prod.fst) ∧
    ((detect_qrs cfg initialState cs).noise_peaks_indices).Sublist
      (cs.map Prod.fst) ∧
    (∀ i : ℤ, i ∈ cs.map Prod.fst ↔
        (i ∈ (detect_qrs cfg initialState cs).qrs_peaks_indices ∨
         i ∈ (detect_qrs cfg initialState cs).noise_peaks_indices ∨
         i ∈ skippedCandidates cfg initialState cs)) ∧
    (∀ j ∈ skippedCandidates cfg initialState cs,
        j ∉ (detect_qrs cfg initialState cs).qrs_peaks_indices ∧
        j ∉ (detect_qrs cfg initialState cs).noise_peaks_indices) := by
  have hqsub : ((detect_qrs cfg initialState cs).qrs_peaks_indices).Sublist
      (cs.map Prod.fst) := by
    obtain ⟨l, hl, hsub⟩ := detect_qrs_qrs_append cfg cs initialState
    rw [hl]
    simpa [initialState] using hsub
  have hnsub : ((detect_qrs cfg initialState cs).noise_peaks_indices).Sublist
      (cs.map Prod.fst) := by
    obtain ⟨l, hl, hsub⟩ := detect_qrs_noise_append cfg cs initialState
    rw [hl]
    simpa [initialState] using hsub
  refine ⟨?_, hqsub, hnsub, ?_, ?_⟩
  · exact detect_qrs_disjoint_aux cfg cs initialState hasc
      (by simp [initialState]) (by simp [initialState]) (by simp [initialState])
  · intro i
    constructor
    · exact detect_qrs_mem_three cfg cs initialState i
    · rintro (h | h | h)
      · exact hqsub.subset h
      · exact hnsub.subset h
      · exact (skippedCandidates_sublist cfg cs initialState).subset h
  · exact skipped_not_mem_aux cfg cs initialState hasc
      (by simp [initialState]) (by simp [initialState])

/-- Witness for `detect_qrs_outputs_structure` at a concrete run. -/
theorem detect_qrs_outputs_structure_witness :
    (([((0 : ℤ), (1 : ℚ)), ((130 : ℤ), (1 / 100 : ℚ)), ((260 : ℤ), (1 : ℚ))].map
        Prod.fst).Pairwise (· < ·)) ∧
    (∀ j ∈ (detect_qrs defaultConfig initialState
        [((0 : ℤ), (1 : ℚ)), ((130 : ℤ), (1 / 100 : ℚ)),
          ((260 : ℤ), (1 : ℚ))]).qrs_peaks_indices,
      j ∉ (detect_qrs defaultConfig initialState
        [((0 : ℤ), (1 : ℚ)), ((130 : ℤ), (1 / 100 : ℚ)),
          ((260 : ℤ), (1 : ℚ))]).noise_peaks_indices) :=
  ⟨by decide, (detect_qrs_outputs_structure defaultConfig
    [((0 : ℤ), (1 : ℚ)), ((130 : ℤ), (1 / 100 : ℚ)), ((260 : ℤ), (1 : ℚ))]
    (by decide)).1⟩

/-- C4: the differentiated signal is one sample shorter than the filtered
signal, and the integrated signal — the full convolution of the squared
signal with a rectangular window of `w` ones — is `w - 1` samples longer than
the squared signal. -/
theorem conditioning_length_relations (filtered : List ℚ) (w : ℕ)
    (hf : 2 ≤ filtered.length) (hw : 1 ≤ w) :
    (ediff1d filtered).length = filtered.length - 1 ∧
    (convolve (square (ediff1d filtered)) (onesWindow w)).length =
      (square (ediff1d filtered)).length + w - 1 := by
  refine ⟨ediff1d_length filtered, ?_⟩
  have h1 : (square (ediff1d filtered)).length = filtered.length - 1 := by
    simp [square, ediff1d_length]
  have h2 : square (ediff1d filtered) ≠ [] := by
    intro h
    rw [h] at h1
    simp at h1
    omega
  have h3 : onesWindow w ≠ [] := by
    intro h
    have := congrArg List.length h
    simp [onesWindow] at this
    omega
  rw [convolve_length _ _ h2 h3]
  simp [onesWindow]

/-- Witness for `conditioning_length_relations` at a concrete signal. -/
theorem conditioning_length_relations_witness :
    2 ≤ ([1, 2, 4, 8] : List ℚ).length ∧ (1 : ℕ) ≤ 3 ∧
    ((ediff1d [1, 2, 4, 8]).length = ([1, 2, 4, 8] : List ℚ).length - 1 ∧
      (convolve (square (ediff1d [1, 2, 4, 8])) (onesWindow 3)).length =
        (square (ediff1d [1, 2, 4, 8])).length + 3 - 1) :=
  ⟨by decide, by decide,
    conditioning_length_relations [1, 2, 4, 8] 3 (by decide) (by decide)⟩

/-- C5: a candidate whose index gap to the last accepted QRS index is at most
`refractory_period`, once at least one QRS exists, is skipped entirely by the
loop body: both index outputs and all three adaptive values are unchanged. -/
theorem refractory_skip_no_state_change (cfg : Config) (st : QrsState)
    (idx : ℤ) (val : ℚ)
    (h1 : idx - st.qrs_peaks_indices.getLastD 0 ≤ cfg.refractory_period)
    (h2 : st.qrs_peaks_indices ≠ []) :
    (detectQrsStep cfg st idx val).qrs_peaks_indices = st.qrs_peaks_indices ∧
    (detectQrsStep cfg st idx val).noise_peaks_indices = st.noise_peaks_indices ∧
    (detectQrsStep cfg st idx val).signal_peak_value = st.signal_peak_value ∧
    (detectQrsStep cfg st idx val).noise_peak_value = st.noise_peak_value ∧
    (detectQrsStep cfg st idx val).threshold_value = st.threshold_value := by
  rw [detectQrsStep_skip (by omega) h2]
  exact ⟨rfl, rfl, rfl, rfl, rfl⟩

/-- Witness for `refractory_skip_no_state_change` at a concrete state. -/
theorem refractory_skip_no_state_change_witness :
    ((10 : ℤ) - (⟨[0], [], 1 / 8, 0, 1 / 32⟩ :
        QrsState).qrs_peaks_indices.getLastD 0 ≤ defaultConfig.refractory_period) ∧
    ((⟨[0], [], 1 / 8, 0, 1 / 32⟩ : QrsState).qrs_peaks_indices ≠ []) ∧
    ((detectQrsStep defaultConfig (⟨[0], [], 1 / 8, 0, 1 / 32⟩ : QrsState)
        10 1).qrs_peaks_indices =
      (⟨[0], [], 1 / 8, 0, 1 / 32⟩ : QrsState).qrs_peaks_indices ∧
     (detectQrsStep defaultConfig (⟨[0], [], 1 / 8, 0, 1 / 32⟩ : QrsState)
        10 1).noise_peaks_indices =
      (⟨[0], [], 1 / 8, 0, 1 / 32⟩ : QrsState).noise_peaks_indices ∧
     (detectQrsStep defaultConfig (⟨[0], [], 1 / 8, 0, 1 / 32⟩ : QrsState)
        10 1).signal_peak_value =
      (⟨[0], [], 1 / 8, 0, 1 / 32⟩ : QrsState).signal_peak_value ∧
     (detectQrsStep defaultConfig (⟨[0], [], 1 / 8, 0, 1 / 32⟩ : QrsState)
        10 1).noise_peak_value =
      (⟨[0], [], 1 / 8, 0, 1 / 32⟩ : QrsState).noise_peak_value ∧
     (detectQrsStep defaultConfig (⟨[0], [], 1 / 8, 0, 1 / 32⟩ : QrsState)
        10 1).threshold_value =
      (⟨[0], [], 1 / 8, 0, 1 / 32⟩ : QrsState).threshold_value) :=
  ⟨by decide, by decide,
    refractory_skip_no_state_change defaultConfig
      (⟨[0], [], 1 / 8, 0, 1 / 32⟩ : QrsState) 10 1 (by decide) (by decide)⟩

/-- C6 counterexample: the single candidate has the non-negative value `0`,
and it is the very first eligible candidate; yet it is classified as noise
rather than accepted as QRS, because the threshold comparison is strict and
`0 > 0` fails. -/
theorem first_candidate_zero_value_to_noise :
    (0 : ℚ) ≥ 0 ∧
    (detect_qrs defaultConfig initialState
      [((5 : ℤ), (0 : ℚ))]).qrs_peaks_indices = [] ∧
    (detect_qrs defaultConfig initialState
      [((5 : ℤ), (0 : ℚ))]).noise_peaks_indices = [5] := by
  decide

/-- C6 (amended): with the all-zero initial state the first candidate is
always eligible, and it is accepted as QRS whenever its value is strictly
positive — any positive value exceeds the zero threshold, while a value of
exactly zero is classified as noise. -/
theorem first_candidate_positive_accepted (cfg : Config) (i : ℤ) (v : ℚ)
    (cs : List (ℤ × ℚ)) (hv : 0 < v) :
    ((detect_qrs cfg initialState ((i, v) :: cs)).qrs_peaks_indices).head? =
      some i := by
  rw [detect_qrs]
  show ((detect_qrs cfg (detectQrsStep cfg initialState i v)
    cs).qrs_peaks_indices).head? = some i
  have hstep : (detectQrsStep cfg initialState i v).qrs_peaks_indices = [i] := by
    have hcond : i - initialState.qrs_peaks_indices.getLastD 0 >
        cfg.refractory_period ∨ initialState.qrs_peaks_indices = [] :=
      Or.inr rfl
    simp only [detectQrsStep]
    rw [if_pos hcond, if_pos (show v > initialState.threshold_value from hv)]
    rfl
  obtain ⟨l, hl, -⟩ := detect_qrs_qrs_append cfg cs (detectQrsStep cfg initialState i v)
  rw [hl, hstep]
  rfl

/-- Witness for `first_candidate_positive_accepted` at a concrete run. -/
theorem first_candidate_positive_accepted_witness :
    (0 : ℚ) < 2 ∧
    ((detect_qrs defaultConfig initialState
        [((7 : ℤ), (2 : ℚ)), ((20 : ℤ), (3 : ℚ))]).qrs_peaks_indices).head? =
      some 7 :=
  ⟨by norm_num, first_candidate_positive_accepted defaultConfig 7 2
    [((20 : ℤ), (3 : ℚ))] (by norm_num)⟩

/-- C7 counterexample: at `lowcut = 30 ≥ highcut = 15` and `filter_order = 0
< 1` — both violating the claimed validity conditions — `bandpass_filter`
still returns a normal result: the source performs no validation and has no
`InvalidFilterSpec` error path. -/
theorem bandpass_filter_invalid_spec_returns :
    (30 : ℚ) ≥ 15 ∧ (0 : ℕ) < 1 ∧
    (bandpass_filter [1, 2] 30 15 250 0).isOk = true := by
  decide

/-- C7 (amended): `bandpass_filter` performs no validation whatsoever: for
every input — `lowcut ≥ highcut`, cutoffs outside `(0, Nyquist)` and order
`< 1` included — it normalises the cutoffs by the Nyquist frequency and
returns the external filtering call normally, never an `InvalidFilterSpec`
error; the repository's own default configuration even sets `filter_lowcut =
0`, violating the claimed precondition on every run. -/
theorem bandpass_filter_no_validation :
    (∀ (data : List ℚ) (lowcut highcut signal_freq : ℚ) (filter_order : ℕ),
      bandpass_filter data lowcut highcut signal_freq filter_order =
        Except.ok ⟨lowcut / ((1 / 2) * signal_freq),
          highcut / ((1 / 2) * signal_freq), filter_order, data⟩) ∧
    defaultConfig.filter_lowcut ≤ 0 :=
  ⟨fun _ _ _ _ _ => rfl, le_refl 0⟩

unseal Rat.sub Rat.add Rat.mul Rat.inv in
/-- C8 counterexample: a 1-sample signal — far shorter than `2·spacing = 100`
— yields a normal degenerate result `[0]` under the pipeline's own limit,
not an `EmptyOrShortSignal` failure. -/
theorem findpeaks_short_signal_returns :
    ([(1 : ℚ)] : List ℚ).length < 2 * 50 ∧
    findpeaks [(1 : ℚ)] 50 (some (35 / 100)) = Except.ok [0] := by
  decide

/-- C8 (amended): there is no `EmptyOrShortSignal` failure anywhere: the peak
finder fails (with the unnamed index error from reading `data[0]`) exactly on
the empty sequence, and returns a normal — possibly degenerate — result on
every non-empty sequence, however short relative to the spacing. -/
theorem findpeaks_fails_only_on_empty (data : List ℚ) (spacing : ℕ)
    (limit : Option ℚ) :
    (findpeaks data spacing limit).isOk = !data.isEmpty := by
  rcases data with _ | ⟨a, as⟩
  · rfl
  · cases limit with
    | none => rfl
    | some lim => rfl

unseal Rat.sub Rat.add Rat.mul Rat.inv in
/-- C9 counterexample: `[1, 5, 1, 3, 1]` has its single strict global maximum
at index 1, spacing 1 is within both boundary distances, and the limit 2 does
not exceed the maximum 5 — yet `findpeaks` returns `[1, 3]`, not the
singleton `[1]`: the secondary local maximum at index 3 also qualifies. -/
theorem findpeaks_global_max_not_singleton :
    (∀ j < ([1, 5, 1, 3, 1] : List ℚ).length, j ≠ 1 →
        ([1, 5, 1, 3, 1] : List ℚ).getD j 0 < ([1, 5, 1, 3, 1] : List ℚ).getD 1 0) ∧
    (1 : ℕ) ≤ 1 ∧ (1 : ℕ) ≤ ([1, 5, 1, 3, 1] : List ℚ).length - 1 - 1 ∧
    (2 : ℚ) ≤ ([1, 5, 1, 3, 1] : List ℚ).getD 1 0 ∧
    findpeaks [1, 5, 1, 3, 1] 1 (some 2) = Except.ok [1, 3] ∧
    ([1, 3] : List ℕ) ≠ [1] := by
  decide

/-- C9 (amended): under the claim's hypotheses with the limit strengthened to
be strictly below the maximum, the single strict global maximum is always
among the returned indices; the result need not be the singleton, since
further local maxima can qualify as well. -/
theorem findpeaks_global_max_detected (data : List ℚ) (i spacing : ℕ) (lim : ℚ)
    (hi : i < data.length)
    (hmax : ∀ j < data.length, j ≠ i → data.getD j 0 < data.getD i 0)
    (hs1 : 1 ≤ spacing) (hsl : spacing ≤ i)
    (hsr : spacing ≤ data.length - 1 - i)
    (hlim : lim < data.getD i 0) :
    ∃ l, findpeaks data spacing (some lim) = Except.ok l ∧ i ∈ l := by
  have hd : data ≠ [] := by
    intro h
    rw [h] at hi
    simp at hi
  obtain ⟨l, hok, -, hmem⟩ := @findpeaks_ok_iff data spacing (some lim) hd
  refine ⟨l, hok, ?_⟩
  rw [hmem]
  refine ⟨hi, ?_, ?_⟩
  · intro s hs
    have hs1' : s + 1 ≤ i := by omega
    have hs2' : i + (s + 1) < data.length := by omega
    constructor
    · unfold specNeighbor
      rw [if_neg (by omega), if_neg (by omega)]
      exact hmax _ (by omega) (by omega)
    · unfold specNeighbor
      rw [if_neg (by omega), if_neg (by omega)]
      exact hmax _ (by omega) (by omega)
  · intro l' hl'
    cases hl'
    exact hlim

/-- Witness for `findpeaks_global_max_detected` at a concrete input. -/
theorem findpeaks_global_max_detected_witness :
    (1 < ([1, 3, 2] : List ℚ).length) ∧
    (∀ j < ([1, 3, 2] : List ℚ).length, j ≠ 1 →
        ([1, 3, 2] : List ℚ).getD j 0 < ([1, 3, 2] : List ℚ).getD 1 0) ∧
    (1 : ℕ) ≤ 1 ∧ (1 : ℕ) ≤ 1 ∧ (1 : ℕ) ≤ ([1, 3, 2] : List ℚ).length - 1 - 1 ∧
    ((2 : ℚ) < ([1, 3, 2] : List ℚ).getD 1 0) ∧
    ∃ l, findpeaks [1, 3, 2] 1 (some 2) = Except.ok l ∧ 1 ∈ l :=
  ⟨by decide, by decide, by decide, by decide, by decide, by decide,
    findpeaks_global_max_detected [1, 3, 2] 1 1 2 (by decide) (by decide)
      (by decide) (by decide) (by decide) (by decide)⟩

/-- C10 counterexample: with candidates at indices 0 and 10 (both of value
1), index 10 falls inside the refractory window after index 0 is accepted;
it then appears in neither the QRS output nor the noise output, so the two
outputs do not partition the full candidate set. -/
theorem refractory_skipped_candidate_unclassified :
    ((10 : ℤ) ∈ ([((0 : ℤ), (1 : ℚ)), ((10 : ℤ), (1 : ℚ))].map Prod.fst)) ∧
    (10 : ℤ) ∉ (detect_qrs defaultConfig initialState
        [((0 : ℤ), (1 : ℚ)), ((10 : ℤ), (1 : ℚ))]).qrs_peaks_indices ∧
    (10 : ℤ) ∉ (detect_qrs defaultConfig initialState
        [((0 : ℤ), (1 : ℚ)), ((10 : ℤ), (1 : ℚ))]).noise_peaks_indices := by
  decide

/-- C10 (amended): every candidate is handled exactly once: the QRS output,
the noise output and the refractory-skipped list together form a permutation
of the full candidate index sequence, so the two outputs partition exactly
the non-skipped candidates. -/
theorem detect_qrs_three_way_partition (cfg : Config) (cs : List (ℤ × ℚ)) :
    ((detect_qrs cfg initialState cs).qrs_peaks_indices ++
      (detect_qrs cfg initialState cs).noise_peaks_indices ++
      skippedCandidates cfg initialState cs).Perm (cs.map Prod.fst) := by
  have h := detect_qrs_partition_aux cfg cs initialState
  rw [← Multiset.coe_eq_coe, ← Multiset.coe_add, ← Multiset.coe_add, h]
  simp [initialState]

end QRSDetectorOffline
